import Mathlib

/-!
Verification of the experiment-suite expansion and job-generation logic of
the kaval repository (src/expcore.py and src/runners.py).

Python values appearing in configuration mappings are modelled by the
inductive type `Val`; a configuration mapping (a Python dict with unique,
insertion-ordered keys) is modelled as an association list `Config`.
Python exceptions are modelled by `PyErr` together with `Except`.
-/

/-- Model of the Python values that occur in configuration mappings and
generator parameter sets: `None`, booleans, integers, strings and lists. -/
inductive Val where
  | vNone
  | vBool (b : Bool)
  | vInt (n : Int)
  | vStr (s : String)
  | vList (xs : List Val)

/-- Model of the Python exceptions raised by the embedded code. -/
inductive PyErr where
  | keyError (k : String)
  | typeError
  | valueError (msg : String)
deriving DecidableEq, Repr

/-- A Python dict with string keys, modelled as an insertion-ordered
association list.  The embedding keeps the dict invariant that keys are
unique; theorems state it explicitly where it matters. -/
abbrev Config := List (String × Val)

/-- Tests whether a value is a Python list (`type(value) == list`). -/
def Val.isVList : Val → Bool
  | .vList _ => true
  | _ => false

/-- Tests whether a value is a Python bool (`isinstance(value, bool)`). -/
def Val.isVBool : Val → Bool
  | .vBool _ => true
  | _ => false

/-- Python truthiness (`if value:`) for the modelled values. -/
def pyTruthy : Val → Bool
  | .vNone => false
  | .vBool b => b
  | .vInt n => n != 0
  | .vStr s => !(s.isEmpty)
  | .vList xs => !(xs.isEmpty)

/-- Python `repr` for the modelled values (used by `str` on lists).
String quoting uses the single-quote character, as Python does. -/
def pyRepr : Val → String
  | .vNone => "None"
  | .vBool b => if b then "True" else "False"
  | .vInt n => toString n
  | .vStr s => "\x27" ++ s ++ "\x27"
  | .vList xs => "[" ++ String.intercalate ", " (xs.attach.map (fun a => pyRepr a.1)) ++ "]"
termination_by v => sizeOf v
decreasing_by
  have := List.sizeOf_lt_of_mem a.2
  simp only [Val.vList.sizeOf_spec]
  omega

/-- Python `str` for the modelled values. -/
def pyStr : Val → String
  | .vNone => "None"
  | .vBool b => if b then "True" else "False"
  | .vInt n => toString n
  | .vStr s => s
  | v => pyRepr v

/-! ## ConfigExpander: `explode` (src/expcore.py, lines 302-314)

`explode` scans the mapping's fields in order, and at the first field whose
value is a list produces one copy per element (with that field replaced by
the element), recursively explodes each copy and concatenates the results;
if nothing was produced (no list-valued field, or the first list was empty)
it returns the singleton `[config]`. -/

/-- Splits a configuration at its first list-valued field: returns the
fields before it, its key, the list elements, and the fields after it.
This captures the `for flag, value in config.items(): if type(value) == list:
... break` scan in `explode`. -/
def splitFirstList : Config → Option (Config × String × List Val × Config)
  | [] => none
  | (k, Val.vList xs) :: rest => some ([], k, xs, rest)
  | e :: rest =>
    match splitFirstList rest with
    | none => none
    | some (pre, k, xs, post) => some (e :: pre, k, xs, post)

theorem splitFirstList_some {c pre : Config} {k : String} {xs : List Val} {post : Config}
    (h : splitFirstList c = some (pre, k, xs, post)) :
    c = pre ++ (k, Val.vList xs) :: post ∧ ∀ p ∈ pre, p.2.isVList = false := by
  induction c generalizing pre with
  | nil => simp [splitFirstList] at h
  | cons e rest ih =>
    match e with
    | (k0, Val.vNone) | (k0, Val.vBool _) | (k0, Val.vInt _) | (k0, Val.vStr _) =>
      simp only [splitFirstList] at h
      match heq : splitFirstList rest with
      | none => rw [heq] at h; simp at h
      | some (pre', k', xs', post') =>
        rw [heq] at h
        simp only [Option.some.injEq, Prod.mk.injEq] at h
        obtain ⟨h1, h2, h3, h4⟩ := h
        obtain ⟨ha, hb⟩ := ih
          (show splitFirstList rest = some (pre', k, xs, post) by rw [heq, h2, h3, h4])
        subst h1
        refine ⟨by simp [ha], ?_⟩
        intro p hp
        rcases List.mem_cons.mp hp with h | h
        · subst h; rfl
        · exact hb p h
    | (k0, Val.vList ys) =>
      simp only [splitFirstList, Option.some.injEq, Prod.mk.injEq] at h
      obtain ⟨h1, h2, h3, h4⟩ := h
      subst h1 h2 h3 h4
      simp

theorem splitFirstList_none {c : Config} (h : splitFirstList c = none) :
    ∀ p ∈ c, p.2.isVList = false := by
  induction c with
  | nil => simp
  | cons e rest ih =>
    intro p hp
    match e with
    | (k0, Val.vNone) | (k0, Val.vBool _) | (k0, Val.vInt _) | (k0, Val.vStr _) =>
      simp only [splitFirstList] at h
      rcases List.mem_cons.mp hp with h' | h'
      · subst h'; rfl
      · match heq : splitFirstList rest with
        | none => exact ih heq p h'
        | some q => rw [heq] at h; simp at h
    | (k0, Val.vList ys) => simp [splitFirstList] at h

/-- Executable size of a value, used in the termination measure of
`explode`: an element of a list is strictly smaller than the list value. -/
def vsize : Val → Nat
  | .vList xs => 1 + (xs.attach.map (fun a => vsize a.1)).sum
  | _ => 1
termination_by v => sizeOf v
decreasing_by
  have := List.sizeOf_lt_of_mem a.2
  simp only [Val.vList.sizeOf_spec]
  omega

theorem vsize_lt_of_mem {v : Val} {xs : List Val} (h : v ∈ xs) :
    vsize v < vsize (Val.vList xs) := by
  have hmem : vsize v ∈ xs.attach.map (fun a => vsize a.1) :=
    List.mem_map.mpr ⟨⟨v, h⟩, List.mem_attach xs ⟨v, h⟩, rfl⟩
  have hle : vsize v ≤ (xs.attach.map (fun a => vsize a.1)).sum :=
    List.single_le_sum (fun x _ => Nat.zero_le x) _ hmem
  have hrw : vsize (Val.vList xs) = 1 + (xs.attach.map (fun a => vsize a.1)).sum := by
    simp [vsize]
  omega

/-- Size of a configuration used as the termination measure of `explode`:
replacing a list-valued field by one of the list's elements strictly
decreases it. -/
def csize (c : Config) : Nat := (c.map (fun p => vsize p.2)).sum

theorem csize_append (a b : Config) : csize (a ++ b) = csize a + csize b := by
  simp [csize]

theorem csize_cons (e : String × Val) (c : Config) :
    csize (e :: c) = vsize e.2 + csize c := by
  simp [csize]

/-- Translation of `explode` (src/expcore.py, lines 302-314).  The scan and
`break` are captured by `splitFirstList`; the dict update
`exploded[flag] = arg` is positional replacement of the first list-valued
field, which coincides with update-by-key because dict keys are unique. -/
def explode (config : Config) : List Config :=
  match h : splitFirstList config with
  | none => [config]
  | some (pre, k, xs, post) =>
    let configs := xs.attach.flatMap (fun arg => explode (pre ++ (k, arg.1) :: post))
    if configs.isEmpty then [config] else configs
termination_by csize config
decreasing_by
  have hc := (splitFirstList_some h).1
  have harg : vsize arg.1 < vsize (Val.vList xs) := vsize_lt_of_mem arg.2
  rw [hc]
  simp only [csize_append, csize_cons]
  omega

theorem attach_flatMap {α β : Type} (xs : List α) (f : α → List β) :
    xs.attach.flatMap (fun a => f a.1) = xs.flatMap f := by
  rw [List.flatMap_def, List.flatMap_def, List.attach_map_val]

theorem explode_of_none {c : Config} (h : splitFirstList c = none) :
    explode c = [c] := by
  rw [explode.eq_def, h]

theorem explode_of_some {c pre post : Config} {k : String} {xs : List Val}
    (h : splitFirstList c = some (pre, k, xs, post)) :
    explode c =
      (if (xs.flatMap (fun arg => explode (pre ++ (k, arg) :: post))).isEmpty
       then [c]
       else xs.flatMap (fun arg => explode (pre ++ (k, arg) :: post))) := by
  rw [explode.eq_def, h]
  simp only [attach_flatMap xs (fun v => explode (pre ++ (k, v) :: post))]

theorem explode_ne_nil (c : Config) : explode c ≠ [] := by
  match h : splitFirstList c with
  | none => rw [explode_of_none h]; simp
  | some (pre, k, xs, post) =>
    rw [explode_of_some h]
    split
    · simp
    · rename_i hne
      simpa [List.isEmpty_iff] using hne

/-! ## Cartesian-product characterisation of `explode` -/

/-- Value-level hypothesis: every list-valued field is a nonempty list. -/
def Val.listNonempty : Val → Bool
  | .vList xs => !(xs.isEmpty)
  | _ => true

/-- Value-level hypothesis: the elements of every list-valued field are
themselves non-list (scalar) values. -/
def Val.elemsScalar : Val → Bool
  | .vList xs => xs.all (fun v => !(v.isVList))
  | _ => true

/-- Value-level hypothesis: the elements of a list-valued field are
pairwise distinct. -/
def Val.listNodup : Val → Prop
  | .vList xs => xs.Nodup
  | _ => True

/-- Product of the sizes of the list-valued fields of a configuration
(the claim's `s1 * ... * sk`; `1` when there is no list-valued field). -/
def prodListSizes : Config → Nat
  | [] => 1
  | (_, Val.vList xs) :: rest => xs.length * prodListSizes rest
  | _ :: rest => prodListSizes rest

/-- The claim's notion of "combination": `d` arises from `c` by keeping
every non-list field (key and value) unchanged, in order, and replacing
every list-valued field by one of that list's elements. -/
def IsChoice : Config → Config → Prop
  | [], d => d = []
  | (k, Val.vList xs) :: rest, d => ∃ x ∈ xs, ∃ d', IsChoice rest d' ∧ d = (k, x) :: d'
  | (k, v) :: rest, d => ∃ d', IsChoice rest d' ∧ d = (k, v) :: d'

/-- Direct Cartesian-product expansion, used as a bridge between `explode`
and the counting / membership / uniqueness statements of the claim. -/
def combos : Config → List Config
  | [] => [[]]
  | (k, Val.vList xs) :: rest => xs.flatMap (fun x => (combos rest).map (fun c => (k, x) :: c))
  | (k, v) :: rest => (combos rest).map (fun c => (k, v) :: c)

theorem combos_cons_nonlist {k : String} {v : Val} (rest : Config)
    (h : v.isVList = false) :
    combos ((k, v) :: rest) = (combos rest).map (fun c => (k, v) :: c) := by
  cases v <;> simp_all [combos, Val.isVList]

theorem combos_of_no_list {c : Config} (h : ∀ p ∈ c, p.2.isVList = false) :
    combos c = [c] := by
  induction c with
  | nil => rfl
  | cons e rest ih =>
    have he : e.2.isVList = false := h e (by simp)
    have : combos ((e.1, e.2) :: rest) = (combos rest).map (fun c => (e.1, e.2) :: c) :=
      combos_cons_nonlist rest he
    rw [show e = (e.1, e.2) from rfl, this, ih (fun p hp => h p (List.mem_cons_of_mem e hp))]
    rfl

theorem combos_split {pre : Config} {k : String} {xs : List Val} {post : Config}
    (hpre : ∀ p ∈ pre, p.2.isVList = false)
    (hxs : ∀ arg ∈ xs, arg.isVList = false) :
    combos (pre ++ (k, Val.vList xs) :: post) =
      xs.flatMap (fun arg => combos (pre ++ (k, arg) :: post)) := by
  induction pre with
  | nil =>
    simp only [List.nil_append, combos]
    exact List.flatMap_congr fun x hx =>
      (combos_cons_nonlist post (hxs x hx)).symm
  | cons e pre' ih =>
    have he : e.2.isVList = false := hpre e (by simp)
    have hpre' : ∀ p ∈ pre', p.2.isVList = false :=
      fun p hp => hpre p (List.mem_cons_of_mem e hp)
    calc combos ((e :: pre') ++ (k, Val.vList xs) :: post)
        = (combos (pre' ++ (k, Val.vList xs) :: post)).map (fun c => (e.1, e.2) :: c) := by
          rw [List.cons_append, show e = (e.1, e.2) from rfl,
            combos_cons_nonlist _ he]
      _ = (xs.flatMap (fun arg => combos (pre' ++ (k, arg) :: post))).map
            (fun c => (e.1, e.2) :: c) := by rw [ih hpre']
      _ = xs.flatMap (fun arg =>
            (combos (pre' ++ (k, arg) :: post)).map (fun c => (e.1, e.2) :: c)) := by
          rw [List.map_flatMap]
      _ = xs.flatMap (fun arg => combos ((e :: pre') ++ (k, arg) :: post)) :=
          List.flatMap_congr fun x hx => by
            rw [List.cons_append, show e = (e.1, e.2) from rfl,
              combos_cons_nonlist _ he]

theorem listNonempty_of_not_list {v : Val} (h : v.isVList = false) :
    v.listNonempty = true := by
  cases v <;> simp_all [Val.isVList, Val.listNonempty]

theorem elemsScalar_of_not_list {v : Val} (h : v.isVList = false) :
    v.elemsScalar = true := by
  cases v <;> simp_all [Val.isVList, Val.elemsScalar]

theorem IsChoice_cons_nonlist {k : String} {v : Val} {rest d : Config}
    (h : v.isVList = false) :
    IsChoice ((k, v) :: rest) d ↔ ∃ d', IsChoice rest d' ∧ d = (k, v) :: d' := by
  cases v <;> simp_all [Val.isVList, IsChoice]

theorem mem_combos {c : Config} : ∀ {d : Config}, d ∈ combos c ↔ IsChoice c d := by
  induction c with
  | nil =>
    intro d
    simp [combos, IsChoice, eq_comm]
  | cons e rest ih =>
    intro d
    rcases e with ⟨k, v⟩
    match v with
    | Val.vList xs =>
      simp only [combos, List.mem_flatMap, List.mem_map, IsChoice]
      constructor
      · rintro ⟨x, hx, d', hd', rfl⟩
        exact ⟨x, hx, d', ih.mp hd', rfl⟩
      · rintro ⟨x, hx, d', hd', rfl⟩
        exact ⟨x, hx, d', ih.mpr hd', rfl⟩
    | Val.vNone | Val.vBool _ | Val.vInt _ | Val.vStr _ =>
      rw [combos_cons_nonlist rest (by simp [Val.isVList]),
        IsChoice_cons_nonlist (by simp [Val.isVList])]
      simp only [List.mem_map]
      constructor
      · rintro ⟨d', hd', rfl⟩
        exact ⟨d', ih.mp hd', rfl⟩
      · rintro ⟨d', hd', rfl⟩
        exact ⟨d', ih.mpr hd', rfl⟩

theorem combos_length (c : Config) : (combos c).length = prodListSizes c := by
  induction c with
  | nil => rfl
  | cons e rest ih =>
    rcases e with ⟨k, v⟩
    match v with
    | Val.vList xs =>
      simp only [combos, prodListSizes, List.length_flatMap]
      have hmap : List.map (List.length ∘ fun x => (combos rest).map (fun c => (k, x) :: c)) xs
          = List.map (fun _ => (combos rest).length) xs := by
        simp [Function.comp_def]
      rw [hmap, List.map_const', List.sum_replicate, smul_eq_mul, ih]
    | Val.vNone | Val.vBool _ | Val.vInt _ | Val.vStr _ =>
      rw [combos_cons_nonlist rest (by simp [Val.isVList])]
      simpa [prodListSizes] using ih

theorem combos_nodup {c : Config} (h : ∀ p ∈ c, p.2.listNodup) :
    (combos c).Nodup := by
  induction c with
  | nil => simp [combos]
  | cons e rest ih =>
    rcases e with ⟨k, v⟩
    have hrest : ∀ p ∈ rest, p.2.listNodup :=
      fun p hp => h p (List.mem_cons_of_mem _ hp)
    have hcons : ∀ x : Val, Function.Injective (fun c : Config => (k, x) :: c) :=
      fun x a b hab => (List.cons.inj hab).2
    match v with
    | Val.vList xs =>
      have hxs : xs.Nodup := by
        have := h (k, Val.vList xs) (by simp)
        simpa [Val.listNodup] using this
      simp only [combos]
      rw [List.nodup_flatMap]
      refine ⟨fun x _ => (ih hrest).map (hcons x), ?_⟩
      refine List.Pairwise.imp ?_ hxs
      intro a b hab z hz1 hz2
      obtain ⟨d1, _, hz1'⟩ := List.mem_map.mp hz1
      obtain ⟨d2, _, hz2'⟩ := List.mem_map.mp hz2
      rw [← hz1'] at hz2'
      exact hab ((Prod.mk.inj (List.cons.inj hz2').1).2.symm)
    | Val.vNone | Val.vBool _ | Val.vInt _ | Val.vStr _ =>
      rw [combos_cons_nonlist rest (by simp [Val.isVList])]
      exact (ih hrest).map (hcons _)

theorem IsChoice_scalar {c : Config} (h2 : ∀ p ∈ c, p.2.elemsScalar = true) :
    ∀ {d : Config}, IsChoice c d → ∀ p ∈ d, p.2.isVList = false := by
  induction c with
  | nil =>
    intro d hd
    rw [show IsChoice [] d = (d = []) from rfl] at hd
    subst hd
    simp
  | cons e rest ih =>
    intro d hd
    rcases e with ⟨k, v⟩
    have hrest : ∀ p ∈ rest, p.2.elemsScalar = true :=
      fun p hp => h2 p (List.mem_cons_of_mem _ hp)
    match v with
    | Val.vList xs =>
      obtain ⟨x, hx, d', hd', rfl⟩ := hd
      intro p hp
      rcases List.mem_cons.mp hp with rfl | hp'
      · have := h2 (k, Val.vList xs) (by simp)
        simp only [Val.elemsScalar, List.all_eq_true] at this
        simpa using this x hx
      · exact ih hrest hd' p hp'
    | Val.vNone | Val.vBool _ | Val.vInt _ | Val.vStr _ =>
      obtain ⟨d', hd', rfl⟩ := (IsChoice_cons_nonlist (by simp [Val.isVList])).mp hd
      intro p hp
      rcases List.mem_cons.mp hp with rfl | hp'
      · simp [Val.isVList]
      · exact ih hrest hd' p hp'

/-- Number of list-valued fields; the strong-induction measure for the
equivalence of `explode` with the direct Cartesian product. -/
def numLists (c : Config) : Nat := c.countP (fun p => p.2.isVList)

theorem explode_eq_combos_aux : ∀ n c, numLists c = n →
    (∀ p ∈ c, p.2.listNonempty = true) →
    (∀ p ∈ c, p.2.elemsScalar = true) →
    explode c = combos c := by
  intro n
  induction n using Nat.strong_induction_on with
  | _ n ih =>
    intro c hn h1 h2
    match hs : splitFirstList c with
    | none =>
      rw [explode_of_none hs, combos_of_no_list (splitFirstList_none hs)]
    | some (pre, k, xs, post) =>
      obtain ⟨hc, hpre⟩ := splitFirstList_some hs
      have hmemfield : (k, Val.vList xs) ∈ c := by rw [hc]; simp
      have hxs_ne : xs ≠ [] := by
        have := h1 _ hmemfield
        simpa [Val.listNonempty, List.isEmpty_iff] using this
      have hxs_scalar : ∀ arg ∈ xs, arg.isVList = false := by
        have := h2 _ hmemfield
        simp only [Val.elemsScalar, List.all_eq_true] at this
        intro arg ha
        simpa using this arg ha
      have hmem_of : ∀ p, p ∈ pre ++ (k, Val.vList xs) :: post → p ∈ c := by
        rw [hc]; exact fun p hp => hp
      have hbranch : ∀ arg ∈ xs,
          explode (pre ++ (k, arg) :: post) = combos (pre ++ (k, arg) :: post) := by
        intro arg ha
        have hmem' : ∀ p, p ∈ pre ++ (k, arg) :: post → p = (k, arg) ∨ p ∈ c := by
          intro p hp
          rcases List.mem_append.mp hp with hp' | hp'
          · exact Or.inr (hmem_of p (List.mem_append.mpr (Or.inl hp')))
          · rcases List.mem_cons.mp hp' with rfl | hp''
            · exact Or.inl rfl
            · exact Or.inr (hmem_of p (by simp [hp'']))
        have hlt : numLists (pre ++ (k, arg) :: post) < n := by
          rw [← hn, hc]
          simp only [numLists, List.countP_append, List.countP_cons,
            hxs_scalar arg ha, show (Val.vList xs).isVList = true from rfl,
            Bool.false_eq_true, if_false, if_true]
          omega
        refine ih _ hlt _ rfl ?_ ?_
        · intro p hp
          rcases hmem' p hp with rfl | hp'
          · exact listNonempty_of_not_list (hxs_scalar arg ha)
          · exact h1 p hp'
        · intro p hp
          rcases hmem' p hp with rfl | hp'
          · exact elemsScalar_of_not_list (hxs_scalar arg ha)
          · exact h2 p hp'
      have hne : (xs.flatMap fun arg => explode (pre ++ (k, arg) :: post)) ≠ [] := by
        intro h0
        rw [List.flatMap_eq_nil_iff] at h0
        match xs, hxs_ne with
        | x :: xs', _ => exact explode_ne_nil _ (h0 x (by simp))
      rw [explode_of_some hs, if_neg (by simpa [List.isEmpty_iff] using hne),
        List.flatMap_congr hbranch, hc]
      exact (combos_split hpre hxs_scalar).symm

theorem explode_eq_combos {c : Config}
    (h1 : ∀ p ∈ c, p.2.listNonempty = true)
    (h2 : ∀ p ∈ c, p.2.elemsScalar = true) :
    explode c = combos c :=
  explode_eq_combos_aux (numLists c) c rfl h1 h2

theorem explode_no_list_eq_singleton {c : Config}
    (h : ∀ p ∈ c, p.2.isVList = false) : explode c = [c] := by
  match hs : splitFirstList c with
  | none => exact explode_of_none hs
  | some (pre, k, xs, post) =>
    obtain ⟨hc, -⟩ := splitFirstList_some hs
    have : (k, Val.vList xs) ∈ c := by rw [hc]; simp
    have := h _ this
    simp [Val.isVList] at this

/-- C1 counterexample: the claim quantifies over every configuration whose
list-valued fields have sizes `s1..sk` and asserts `explode` returns exactly
`s1 * ... * sk` configurations.  For the configuration `{a: []}` the product
is `0`, but `explode` returns the one-element list containing the original
configuration (the `for` loop over the empty list produces nothing and
`if not configs: return [config]` fires). -/
theorem explode_count_fails_on_empty_list :
    (explode [("a", Val.vList [])]).length ≠ prodListSizes [("a", Val.vList [])] := by
  have hs : splitFirstList [("a", Val.vList [])] = some ([], "a", [], []) := rfl
  rw [explode_of_some hs]
  simp [prodListSizes]

/-- C1 (amended): for every configuration mapping (unique keys) whose
list-valued fields are nonempty lists of non-list elements, `explode`
returns exactly the product of the list sizes, the produced configurations
are exactly the combinations obtained by replacing every list-valued field
by one of its elements (all other fields unchanged), every produced
configuration is scalar, combinations appear exactly once as soon as each
list's elements are pairwise distinct, and a configuration with no
list-valued field (in particular the empty mapping) is returned unchanged
as a singleton. -/
theorem explode_cartesian_product (c : Config)
    (hkeys : (c.map Prod.fst).Nodup)
    (h1 : ∀ p ∈ c, p.2.listNonempty = true)
    (h2 : ∀ p ∈ c, p.2.elemsScalar = true) :
    (explode c).length = prodListSizes c
    ∧ (∀ d, d ∈ explode c ↔ IsChoice c d)
    ∧ (∀ d ∈ explode c, ∀ p ∈ d, p.2.isVList = false)
    ∧ ((∀ p ∈ c, p.2.listNodup) → (explode c).Nodup)
    ∧ ((∀ p ∈ c, p.2.isVList = false) → explode c = [c]) := by
  have he := explode_eq_combos h1 h2
  refine ⟨by rw [he]; exact combos_length c,
    fun d => by rw [he]; exact mem_combos,
    fun d hd => IsChoice_scalar h2 (mem_combos.mp (by rw [← he]; exact hd)),
    fun hnd => by rw [he]; exact combos_nodup hnd,
    fun hnl => explode_no_list_eq_singleton hnl⟩

/-- C1 witness: the specification's own example
`{a: [1,2], b: "x", c: [true,false]}` satisfies the amended hypotheses and
expands to exactly `2 * 2 = 4` scalar configurations. -/
theorem explode_cartesian_product_witness :
    (explode [("a", Val.vList [Val.vInt 1, Val.vInt 2]), ("b", Val.vStr "x"),
      ("c", Val.vList [Val.vBool true, Val.vBool false])]).length
      = prodListSizes [("a", Val.vList [Val.vInt 1, Val.vInt 2]), ("b", Val.vStr "x"),
        ("c", Val.vList [Val.vBool true, Val.vBool false])] :=
  (explode_cartesian_product _ (by decide) (by decide) (by decide)).1

/-! ## Scalar configuration rendering: `params_to_flags`
(src/expcore.py, lines 317-329) -/

/-- Translation of `params_to_flags`: the `for flag, value in params.items()`
loop appending to `flags` becomes a left fold. -/
def params_to_flags (params : Config) : List String :=
  params.foldl
    (fun flags p =>
      let dash := if p.1.length > 1 then "--" else "-"
      match p.2 with
      | Val.vBool b => if b then flags ++ [dash ++ p.1] else flags
      | v => flags ++ [dash ++ p.1, pyStr v])
    []

/-- Tokens contributed by a single configuration field, as the specification
describes them: bare flag for boolean true, nothing for boolean false, flag
followed by the stringified value otherwise; single dash for one-character
names, double dash otherwise. -/
def flagTokens (p : String × Val) : List String :=
  let dash := if p.1.length > 1 then "--" else "-"
  match p.2 with
  | Val.vBool b => if b then [dash ++ p.1] else []
  | v => [dash ++ p.1, pyStr v]

theorem params_to_flags_go (params : Config) (acc : List String) :
    params.foldl
      (fun flags p =>
        let dash := if p.1.length > 1 then "--" else "-"
        match p.2 with
        | Val.vBool b => if b then flags ++ [dash ++ p.1] else flags
        | v => flags ++ [dash ++ p.1, pyStr v])
      acc = acc ++ params.flatMap flagTokens := by
  induction params generalizing acc with
  | nil => simp
  | cons p ps ih =>
    rcases p with ⟨k, v⟩
    match v with
    | Val.vBool b =>
      cases b <;> simp [List.foldl_cons, ih, flagTokens]
    | Val.vNone | Val.vInt _ | Val.vStr _ | Val.vList _ =>
      simp [List.foldl_cons, ih, flagTokens]

/-- C4 counterexample: the claim's example `{k: "v"} -> ["--k", "v"]`
contradicts the code (and the claim's own dash rule): `k` is a
single-character flag name, so `params_to_flags` emits a single leading
dash, `["-k", "v"]`. -/
theorem params_to_flags_single_char_example_fails :
    params_to_flags [("k", Val.vStr "v")] = ["-k", "v"]
    ∧ params_to_flags [("k", Val.vStr "v")] ≠ ["--k", "v"] := by
  exact ⟨rfl, by decide⟩

/-- C4 (amended): flag rendering of a scalar configuration emits, field by
field in order, a bare flag for boolean true, nothing for boolean false,
and the flag followed by the stringified value otherwise, with a single
leading dash exactly for single-character flag names; the single-character
example `{k: "v"}` renders as `["-k", "v"]` (not `["--k", "v"]`). -/
theorem params_to_flags_rendering :
    (∀ params : Config, params_to_flags params = params.flatMap flagTokens)
    ∧ (∀ (k : String) (b : Bool), params_to_flags [(k, Val.vBool b)]
        = if b then [(if k.length > 1 then "--" else "-") ++ k] else [])
    ∧ params_to_flags [("verbose", Val.vBool true)] = ["--verbose"]
    ∧ params_to_flags [("verbose", Val.vBool false)] = []
    ∧ params_to_flags [("k", Val.vStr "v")] = ["-k", "v"]
    ∧ params_to_flags [("x", Val.vInt 5)] = ["-x", "5"] := by
  refine ⟨fun params => params_to_flags_go params [], ?_, rfl, rfl, rfl, rfl⟩
  intro k b
  cases b <;> simp [params_to_flags]

/-! ## FileInput: `FileInputGraph` (src/expcore.py, lines 47-94)

The fatal path `logging.error(...); sys.exit(1)` is modelled by
`Except.error` carrying the logged message. -/

/-- State of a `FileInputGraph`: `base_name` is the slugified `_name`
attribute, `partitions` the mapping from rank count to partition-file
path, `partitioned` the flag set by the suite loader. -/
structure FileInputGraph where
  base_name : String
  path : String
  format : String
  partitions : List (Nat × String)
  partitioned : Bool

/-- Translation of the `name` property: the partitioned variant appends
`"_partitioned"` to the stored name. -/
def FileInputGraph.pyName (g : FileInputGraph) : String :=
  if g.partitioned then g.base_name ++ "_partitioned" else g.base_name

/-- Translation of `FileInputGraph.args` (src/expcore.py, lines 55-66).
The Python truthiness test `if not partition_file` fails the call both when
`partitions.get(mpi_ranks)` returns `None` (no entry) and when the stored
path is the empty string (a falsy value). -/
def FileInputGraph.args (g : FileInputGraph) (mpi_ranks threads_per_rank : Nat)
    (escape : Bool) : Except String (List String) :=
  let file_args := ["--graphtype", "BRAIN", "--infile_dir", g.path]
  if g.partitioned ∧ 1 < mpi_ranks then
    match List.lookup mpi_ranks g.partitions with
    | none =>
      Except.error ("Could not load partitioning for p=" ++ toString mpi_ranks
        ++ " for input " ++ g.pyName)
    | some partition_file =>
      if partition_file = "" then
        Except.error ("Could not load partitioning for p=" ++ toString mpi_ranks
          ++ " for input " ++ g.pyName)
      else Except.ok (file_args ++ ["--partitioning", partition_file])
  else Except.ok file_args

/-- C2 counterexample: the claim says that whenever the partition map has an
entry for the requested rank count, `args` succeeds and emits the partition
argument.  With an entry mapping rank count 2 to the empty string the entry
exists, yet the call fails fatally, because `if not partition_file` treats
the empty string like a missing entry. -/
theorem fileinput_args_empty_entry_fails :
    List.lookup 2 (FileInputGraph.partitions ⟨"brain", "/g", "metis", [(2, "")], true⟩)
      = some ""
    ∧ FileInputGraph.args ⟨"brain", "/g", "metis", [(2, "")], true⟩ 2 1 true
      = Except.error "Could not load partitioning for p=2 for input brain_partitioned" := by
  exact ⟨rfl, rfl⟩

/-- C2 (amended): for a partitioned input and `mpiRanks > 1`, `args` fails
fatally (logged error, process exit) when the partition map has no entry
for that exact rank count or the entry is the empty (falsy) string; when a
nonempty entry exists the returned argument sequence appends the partition
flag and file; for `mpiRanks <= 1` or an unpartitioned input the result is
the plain file argument list, independent of the partition map, and the
call never fails. -/
theorem fileinput_args_partition_spec (g : FileInputGraph)
    (mpi_ranks threads_per_rank : Nat) (escape : Bool) (pf : String) :
    (g.partitioned = true → 1 < mpi_ranks →
      List.lookup mpi_ranks g.partitions = none →
      g.args mpi_ranks threads_per_rank escape
        = Except.error ("Could not load partitioning for p=" ++ toString mpi_ranks
            ++ " for input " ++ g.pyName))
    ∧ (g.partitioned = true → 1 < mpi_ranks →
      List.lookup mpi_ranks g.partitions = some "" →
      g.args mpi_ranks threads_per_rank escape
        = Except.error ("Could not load partitioning for p=" ++ toString mpi_ranks
            ++ " for input " ++ g.pyName))
    ∧ (g.partitioned = true → 1 < mpi_ranks →
      List.lookup mpi_ranks g.partitions = some pf → pf ≠ "" →
      g.args mpi_ranks threads_per_rank escape
        = Except.ok ["--graphtype", "BRAIN", "--infile_dir", g.path,
            "--partitioning", pf])
    ∧ (g.partitioned = false →
      g.args mpi_ranks threads_per_rank escape
        = Except.ok ["--graphtype", "BRAIN", "--infile_dir", g.path])
    ∧ (mpi_ranks ≤ 1 →
      g.args mpi_ranks threads_per_rank escape
        = Except.ok ["--graphtype", "BRAIN", "--infile_dir", g.path]) := by
  refine ⟨fun hp hm hl => ?_, fun hp hm hl => ?_, fun hp hm hl hne => ?_,
    fun hp => ?_, fun hm => ?_⟩
  · simp [FileInputGraph.args, hp, hm, hl]
  · simp [FileInputGraph.args, hp, hm, hl]
  · simp [FileInputGraph.args, hp, hm, hl, hne]
  · simp [FileInputGraph.args, hp]
  · have : ¬ (1 < mpi_ranks) := by omega
    simp [FileInputGraph.args, this]

/-- C2 witness: a partitioned input with a partition file registered for
4 ranks renders the partition argument at 4 ranks, and an unpartitioned
input never consults the partition map. -/
theorem fileinput_args_partition_spec_witness :
    FileInputGraph.args ⟨"x", "/p", "metis", [(4, "part4")], true⟩ 4 1 true
      = Except.ok ["--graphtype", "BRAIN", "--infile_dir", "/p", "--partitioning", "part4"]
    ∧ FileInputGraph.args ⟨"x", "/p", "metis", [], false⟩ 8 1 true
      = Except.ok ["--graphtype", "BRAIN", "--infile_dir", "/p"] := by
  constructor
  · exact (fileinput_args_partition_spec ⟨"x", "/p", "metis", [(4, "part4")], true⟩
      4 1 true "part4").2.2.1 rfl (by decide) rfl (by decide)
  · exact (fileinput_args_partition_spec ⟨"x", "/p", "metis", [], false⟩
      8 1 true "").2.2.2.1 rfl

/-! ## GeneratedInput: `KaGenGraph` (src/expcore.py, lines 97-163) -/

/-- Python dict key removal (`kwargs.pop(k, ...)`). -/
def dictPop (d : Config) (k : String) : Config := d.filter (fun p => p.1 != k)

/-- Python `int(value)` on the modelled values: ints pass through, bools
become 0/1, numeric strings parse (non-numeric strings raise ValueError),
`None` and lists raise TypeError. -/
def pyInt : Val → Except PyErr Int
  | .vInt n => .ok n
  | .vBool b => .ok (if b then 1 else 0)
  | .vStr s =>
    match s.toInt? with
    | some n => .ok n
    | none => .error (.valueError ("invalid literal for int() with base 10: " ++ s))
  | .vNone => .error .typeError
  | .vList _ => .error .typeError

/-- Python `1 << e` for an int `e`: negative shift counts raise ValueError,
otherwise the result is `2 ^ e`. -/
def pyShl1 (e : Int) : Except PyErr Val :=
  if e < 0 then .error (.valueError "negative shift count")
  else .ok (.vInt ((2 : Int) ^ e.toNat))

/-- Translation of one size-field statement of `KaGenGraph.__init__`
(`try: self.n = kwargs.get("n", 1 << int(kwargs["N"])) except TypeError:
self.n = None`).  Python evaluates the default eagerly, so `kwargs[expKey]`
is read first: a missing exponent key raises an uncaught KeyError, an
un-convertible exponent value raises TypeError, which the `except` turns
into `None` even when the direct key is present; only then does
`kwargs.get(key, default)` prefer the direct value over the computed
default. -/
def kagen_size_field (kwargs : Config) (key expKey : String) :
    Except PyErr (Option Val) :=
  match List.lookup expKey kwargs with
  | none => .error (.keyError expKey)
  | some ev =>
    match pyInt ev with
    | .error PyErr.typeError => .ok none
    | .error e => .error e
    | .ok e =>
      match pyShl1 e with
      | .error e2 => .error e2
      | .ok defv => .ok (some ((List.lookup key kwargs).getD defv))

/-- State of a `KaGenGraph` after `__init__`: `n`/`m` as computed by the
size-field statements (`none` models Python `None`), the raw `scale_weak`
value, and the remaining keyword arguments (including `type`). -/
structure KaGenGraph where
  n : Option Val
  m : Option Val
  scale_weak : Val
  params : Config

/-- Translation of `KaGenGraph.__init__` (src/expcore.py, lines 99-117):
requires a `type` key, computes `n`/`m` with exponent defaults `N`/`M`,
pops the size keys and `scale_weak`, and keeps the rest as generator
parameters. -/
def KaGenGraph.init (kwargs : Config) : Except PyErr KaGenGraph :=
  if (List.lookup "type" kwargs).isNone then
    .error (.valueError "KaGen graph requires a type")
  else
    match kagen_size_field kwargs "n" "N" with
    | .error e => .error e
    | .ok nv =>
      match kagen_size_field kwargs "m" "M" with
      | .error e => .error e
      | .ok mv =>
        let sw := (List.lookup "scale_weak" kwargs).getD (Val.vBool false)
        let ps := dictPop (dictPop (dictPop (dictPop (dictPop kwargs "n") "N") "m") "M")
          "scale_weak"
        .ok ⟨nv, mv, sw, ps⟩

/-- Python `value * p` for an int `p` as used by `get_n`/`get_m`: numbers
multiply, strings and lists replicate, `None` raises TypeError. -/
def pyMulByInt : Val → Int → Except PyErr Val
  | .vInt a, p => .ok (.vInt (a * p))
  | .vBool b, p => .ok (.vInt ((if b then (1 : Int) else 0) * p))
  | .vStr s, p => .ok (.vStr (String.join (List.replicate p.toNat s)))
  | .vList xs, p => .ok (.vList (List.replicate p.toNat xs).flatten)
  | .vNone, _ => .error .typeError

/-- Translation of `KaGenGraph.get_n` (src/expcore.py, lines 119-123). -/
def KaGenGraph.get_n (g : KaGenGraph) (p : Int) : Except PyErr Val :=
  if pyTruthy g.scale_weak then pyMulByInt (g.n.getD Val.vNone) p
  else .ok (g.n.getD Val.vNone)

/-- Translation of `KaGenGraph.get_m` (src/expcore.py, lines 125-129). -/
def KaGenGraph.get_m (g : KaGenGraph) (p : Int) : Except PyErr Val :=
  if pyTruthy g.scale_weak then pyMulByInt (g.m.getD Val.vNone) p
  else .ok (g.m.getD Val.vNone)

/-- Translation of `KaGenGraph.stringify_params` (src/expcore.py,
lines 143-150): booleans contribute the bare key, everything else
`key=value`. -/
def KaGenGraph.stringify_params (g : KaGenGraph) : List String :=
  g.params.map (fun p =>
    match p.2 with
    | Val.vBool _ => p.1
    | v => p.1 ++ "=" ++ pyStr v)

/-- Fuel-driven floor base-2 logarithm (`floorLog2Aux n n` computes
`floor (log2 n)` for `n > 0`, since halving reaches 1 within `n` steps). -/
def floorLog2Aux : Nat → Nat → Nat
  | 0, _ => 0
  | fuel + 1, n => if 2 ≤ n then floorLog2Aux fuel (n / 2) + 1 else 0

/-- Floor base-2 logarithm of a positive natural number. -/
def floorLog2 (n : Nat) : Nat := floorLog2Aux n n

/-- Model of `int(math.log2(x))` on the modelled values: defined on
positive ints as the floor base-2 logarithm, which is exact for the powers
of two the name computation is applied to; non-positive arguments raise
the math domain error, non-numbers raise TypeError. -/
def pyIntLog2 : Val → Except PyErr Nat
  | .vInt a => if a ≤ 0 then .error (.valueError "math domain error") else .ok (floorLog2 a.toNat)
  | .vBool b => if b then .ok 0 else .error (.valueError "math domain error")
  | _ => .error .typeError

/-- Translation of the `KaGenGraph.name` property (src/expcore.py,
lines 152-163).  The external `slugify.slugify` post-processing is an
opaque deterministic string transformation passed in as `slug`. -/
def KaGenGraph.pyName (slug : String → String) (g : KaGenGraph) :
    Except PyErr String :=
  let nv := g.n.getD Val.vNone
  let mv := g.m.getD Val.vNone
  match (if pyTruthy nv then (pyIntLog2 nv).map (fun e => ["n=" ++ toString e]) else .ok []) with
  | .error e => .error e
  | .ok nparts =>
    match (if pyTruthy mv then (pyIntLog2 mv).map (fun e => ["m=" ++ toString e]) else .ok []) with
    | .error e => .error e
    | .ok mparts =>
      let parts := nparts ++ mparts ++ g.stringify_params
        ++ (if pyTruthy g.scale_weak then ["weak"] else [])
      .ok (slug ("KaGen_" ++ String.intercalate "_" parts))

/-- C5 counterexample: constructing a generated input with both a direct
vertex count `n = 5` and an exponent `N = 3` stores `n = 5`, not
`2 ^ 3 = 8`: `kwargs.get("n", 1 << int(kwargs["N"]))` prefers the present
key `n`, so the direct form, not the exponent form, takes precedence. -/
theorem kagen_exponent_precedence_fails :
    (KaGenGraph.init [("type", Val.vStr "rgg2d"), ("n", Val.vInt 5), ("N", Val.vInt 3),
        ("m", Val.vInt 7), ("M", Val.vInt 4)]).map KaGenGraph.n
      = Except.ok (some (Val.vInt 5))
    ∧ (KaGenGraph.init [("type", Val.vStr "rgg2d"), ("n", Val.vInt 5), ("N", Val.vInt 3),
        ("m", Val.vInt 7), ("M", Val.vInt 4)]).map KaGenGraph.n
      ≠ Except.ok (some (Val.vInt (2 ^ 3))) := by
  refine ⟨rfl, fun h => ?_⟩
  rw [show (KaGenGraph.init [("type", Val.vStr "rgg2d"), ("n", Val.vInt 5),
      ("N", Val.vInt 3), ("m", Val.vInt 7), ("M", Val.vInt 4)]).map KaGenGraph.n
      = Except.ok (some (Val.vInt 5)) from rfl] at h
  simp at h

/-- C5 (amended): when both the direct count and the power-of-two exponent
are given (as ints, with a nonnegative exponent and a `type` key present),
construction succeeds and the *direct* form takes precedence: the stored
base vertex count is the given `n`, not `2 ^ N`, and likewise the stored
edge count is the given `m`, not `2 ^ M`; the exponent is still converted
first (eagerly), it is merely discarded. -/
theorem kagen_direct_size_overrides_exponent (kwargs : Config) (a e b f : Int)
    (htype : (List.lookup "type" kwargs).isSome)
    (hn : List.lookup "n" kwargs = some (Val.vInt a))
    (hN : List.lookup "N" kwargs = some (Val.vInt e)) (he : 0 ≤ e)
    (hm : List.lookup "m" kwargs = some (Val.vInt b))
    (hM : List.lookup "M" kwargs = some (Val.vInt f)) (hf : 0 ≤ f) :
    (KaGenGraph.init kwargs).map KaGenGraph.n = Except.ok (some (Val.vInt a))
    ∧ (KaGenGraph.init kwargs).map KaGenGraph.m = Except.ok (some (Val.vInt b)) := by
  have hne : ¬ (e < 0) := not_lt.mpr he
  have hnf : ¬ (f < 0) := not_lt.mpr hf
  have htype' : (List.lookup "type" kwargs).isNone = false := by
    rcases Option.isSome_iff_exists.mp htype with ⟨v, hv⟩
    simp [hv]
  constructor <;>
    simp [KaGenGraph.init, kagen_size_field, htype', hn, hN, hm, hM, pyInt,
      pyShl1, hne, hnf, Except.map]

/-- C5 witness: a concrete construction with `type`, `n = 5`, `N = 3`,
`m = 7`, `M = 4` succeeds with stored sizes 5 and 7. -/
theorem kagen_direct_size_overrides_exponent_witness :
    (KaGenGraph.init [("type", Val.vStr "rgg2d"), ("n", Val.vInt 5), ("N", Val.vInt 3),
        ("m", Val.vInt 7), ("M", Val.vInt 4)]).map KaGenGraph.n
      = Except.ok (some (Val.vInt 5))
    ∧ (KaGenGraph.init [("type", Val.vStr "rgg2d"), ("n", Val.vInt 5), ("N", Val.vInt 3),
        ("m", Val.vInt 7), ("M", Val.vInt 4)]).map KaGenGraph.m
      = Except.ok (some (Val.vInt 7)) :=
  kagen_direct_size_overrides_exponent
    [("type", Val.vStr "rgg2d"), ("n", Val.vInt 5), ("N", Val.vInt 3),
      ("m", Val.vInt 7), ("M", Val.vInt 4)]
    5 3 7 4 rfl rfl rfl (by decide) rfl rfl (by decide)

/-- C6: with the weak-scaling flag truthy and a stored int base count `n0`,
`get_n p` returns `n0 * p`; with the flag falsy, `get_n` returns the stored
count unchanged, independent of `p`; in particular for the input built from
exponent 20 with weak scaling off, `get_n p` is `2 ^ 20 = 1048576` for
every parallelism `p`, and the input's name is a fixed string (there is no
parallelism parameter in the name computation at all). -/
theorem kagen_weak_scaling (g : KaGenGraph) (p q n0 : Int) (slug : String → String) :
    (pyTruthy g.scale_weak = true → g.n = some (Val.vInt n0) →
      g.get_n p = Except.ok (Val.vInt (n0 * p)))
    ∧ (pyTruthy g.scale_weak = false → g.get_n p = Except.ok (g.n.getD Val.vNone))
    ∧ (pyTruthy g.scale_weak = false → g.get_n p = g.get_n q)
    ∧ KaGenGraph.init [("type", Val.vStr "rgg2d"), ("N", Val.vInt 20), ("M", Val.vNone)]
        = Except.ok ⟨some (Val.vInt 1048576), none, Val.vBool false,
            [("type", Val.vStr "rgg2d")]⟩
    ∧ KaGenGraph.get_n
        ⟨some (Val.vInt 1048576), none, Val.vBool false, [("type", Val.vStr "rgg2d")]⟩ p
        = Except.ok (Val.vInt 1048576)
    ∧ KaGenGraph.pyName slug
        ⟨some (Val.vInt 1048576), none, Val.vBool false, [("type", Val.vStr "rgg2d")]⟩
        = Except.ok (slug "KaGen_n=20_type=rgg2d") := by
  refine ⟨fun hw hn => ?_, fun hw => ?_, fun hw => ?_, rfl, rfl, rfl⟩
  · simp [KaGenGraph.get_n, hw, hn, pyMulByInt]
  · simp [KaGenGraph.get_n, hw]
  · simp [KaGenGraph.get_n, hw]

/-- C6 witness: a weak-scaling input with base count 4 derives size 12 at
parallelism 3, and a non-weak-scaling input derives the same size at
parallelism 3 and 5. -/
theorem kagen_weak_scaling_witness :
    KaGenGraph.get_n ⟨some (Val.vInt 4), none, Val.vBool true, []⟩ 3
      = Except.ok (Val.vInt (4 * 3))
    ∧ KaGenGraph.get_n ⟨some (Val.vInt 4), none, Val.vBool false, []⟩ 3
      = KaGenGraph.get_n ⟨some (Val.vInt 4), none, Val.vBool false, []⟩ 5 := by
  constructor
  · exact (kagen_weak_scaling ⟨some (Val.vInt 4), none, Val.vBool true, []⟩
      3 0 4 id).1 rfl rfl
  · exact (kagen_weak_scaling ⟨some (Val.vInt 4), none, Val.vBool false, []⟩
      3 5 4 id).2.2.1 rfl

/-! ## Batch runners (src/runners.py) -/

/-- A Python value that is either a string or a `ValueError` exception
object.  `HorekaRunner.get_queue` *returns* (rather than raises) a
`ValueError` instance on its over-limit branch, so its result type must
admit both. -/
inductive PyObj where
  | pstr (s : String)
  | pValueError (msg : String)
deriving DecidableEq, Repr

/-- Translation of `SBatchRunner.required_nodes` (src/runners.py,
lines 329-330): `int(max(int(ceil(float(cores) / tasks_per_node)), 1))`.
For a positive `tasks_per_node` the float ceiling of the division equals
the natural-number expression `(cores + tasks_per_node - 1) /
tasks_per_node` (Python would raise ZeroDivisionError at 0, and the float
detour is exact in the machine ranges involved). -/
def required_nodes (cores tasks_per_node : Nat) : Nat :=
  max ((cores + tasks_per_node - 1) / tasks_per_node) 1

/-- Translation of `SuperMUCRunner.get_queue` (src/runners.py,
lines 382-389). -/
def supermuc_get_queue (cores tasks_per_node : Nat) (use_test_partition : Bool) :
    String :=
  let nodes := required_nodes cores tasks_per_node
  if nodes ≤ 16 then (if use_test_partition then "test" else "micro")
  else if nodes ≤ 768 then "general"
  else "large"

/-- Translation of `SuperMUCRunner.required_islands` (src/runners.py,
lines 391-395). -/
def supermuc_required_islands (nodes : Nat) : Nat :=
  if nodes > 768 then 2 else 1

/-- Translation of `HorekaRunner.get_queue` (src/runners.py,
lines 438-445).  Note the source's final branch is
`return ValueError("Cannot use more than 192 compute nodes on HoreKa!")`:
it returns the exception object as the function's value instead of raising
it, so no error is surfaced and no process termination happens there. -/
def horeka_get_queue (cores tasks_per_node : Nat) (use_test_partition : Bool) :
    PyObj :=
  let nodes := required_nodes cores tasks_per_node
  if nodes ≤ 12 then .pstr (if use_test_partition then "dev_cpuonly" else "cpuonly")
  else if nodes ≤ 192 then .pstr "cpuonly"
  else .pValueError "Cannot use more than 192 compute nodes on HoreKa!"

/-- Translation of `HorekaRunner.required_islands` (src/runners.py,
lines 447-448). -/
def horeka_required_islands (nodes : Nat) : Nat := 1

/-- C3: the HoreKa queue selection does return `dev_cpuonly`/`cpuonly`
within the 12- and 192-node limits, but at 193 nodes the code does *not*
terminate the process with a diagnostic: `return ValueError(...)` hands the
un-raised exception object back as the queue value, and job-script
generation would proceed with it.  The claim (and the specification's
error-handling taxonomy) describe the intended behaviour; the code has the
bug of returning instead of raising. -/
theorem horeka_queue_overlimit_returns_valueerror :
    horeka_get_queue 12 1 true = PyObj.pstr "dev_cpuonly"
    ∧ horeka_get_queue 12 1 false = PyObj.pstr "cpuonly"
    ∧ horeka_get_queue 13 1 true = PyObj.pstr "cpuonly"
    ∧ horeka_get_queue 192 1 false = PyObj.pstr "cpuonly"
    ∧ horeka_get_queue 193 1 false
        = PyObj.pValueError "Cannot use more than 192 compute nodes on HoreKa!"
    ∧ horeka_get_queue 193 1 false ≠ PyObj.pstr "cpuonly" := by
  refine ⟨rfl, rfl, rfl, rfl, rfl, by decide⟩

/-- C7: SuperMUC-like queue selection by node count: at most 16 nodes picks
`test`/`micro`, between 17 and 768 picks `general`, above 768 picks
`large`; the island count is 2 exactly above 768 nodes and 1 otherwise,
with the boundary instances 16/17/768/769 as the specification lists
them. -/
theorem supermuc_queue_selection (cores tasks_per_node : Nat) (use_test : Bool)
    (nodes : Nat) :
    (required_nodes cores tasks_per_node ≤ 16 →
      supermuc_get_queue cores tasks_per_node use_test
        = if use_test then "test" else "micro")
    ∧ (16 < required_nodes cores tasks_per_node →
      required_nodes cores tasks_per_node ≤ 768 →
      supermuc_get_queue cores tasks_per_node use_test = "general")
    ∧ (768 < required_nodes cores tasks_per_node →
      supermuc_get_queue cores tasks_per_node use_test = "large")
    ∧ (supermuc_required_islands nodes = 2 ↔ 768 < nodes)
    ∧ (supermuc_required_islands nodes = 1 ↔ nodes ≤ 768)
    ∧ supermuc_get_queue 16 1 false = "micro"
    ∧ supermuc_get_queue 16 1 true = "test"
    ∧ supermuc_get_queue 17 1 false = "general"
    ∧ supermuc_get_queue 769 1 false = "large"
    ∧ supermuc_required_islands 769 = 2
    ∧ supermuc_required_islands 768 = 1 := by
  refine ⟨fun h1 => ?_, fun h1 h2 => ?_, fun h1 => ?_, ?_, ?_,
    rfl, rfl, rfl, rfl, rfl, rfl⟩
  · simp [supermuc_get_queue, h1]
  · simp [supermuc_get_queue, h2, Nat.not_le.mpr h1]
  · simp [supermuc_get_queue, Nat.not_le.mpr h1,
      Nat.not_le.mpr (by omega : (16 : Nat) < required_nodes cores tasks_per_node)]
  · unfold supermuc_required_islands
    split <;> omega
  · unfold supermuc_required_islands
    split <;> omega

/-- C7 witness: at 17 cores with one task per node, 17 nodes are required
and the SuperMUC-like queue is `general`. -/
theorem supermuc_queue_selection_witness :
    supermuc_get_queue 17 1 false = "general" :=
  (supermuc_queue_selection 17 1 false 0).2.1 (by decide) (by decide)

/-- C8: the required node count is the ceiling of `cores / tasks_per_node`
with a minimum of 1: it is the least node count whose capacity covers the
requested cores, it is at least 1, and the example 100 cores at 48 tasks
per node gives 3 nodes. -/
theorem required_nodes_ceiling (cores tasks_per_node k : Nat)
    (hc : 0 < cores) (ht : 0 < tasks_per_node) :
    cores ≤ required_nodes cores tasks_per_node * tasks_per_node
    ∧ (cores ≤ k * tasks_per_node → required_nodes cores tasks_per_node ≤ k)
    ∧ 1 ≤ required_nodes cores tasks_per_node
    ∧ required_nodes 100 48 = 3 := by
  have hq : required_nodes cores tasks_per_node = (cores - 1) / tasks_per_node + 1 := by
    unfold required_nodes
    have h1 : cores + tasks_per_node - 1 = (cores - 1) + tasks_per_node := by omega
    rw [h1, Nat.add_div_right _ ht, Nat.max_eq_left (Nat.le_add_left 1 _)]
  refine ⟨?_, fun hk => ?_, ?_, rfl⟩
  · rw [hq]
    have h2 : cores - 1 < ((cores - 1) / tasks_per_node + 1) * tasks_per_node :=
      (Nat.div_lt_iff_lt_mul ht).mp (Nat.lt_succ_self _)
    exact le_trans (by omega) (Nat.succ_le_of_lt h2)
  · rw [hq]
    have h2 : cores - 1 < k * tasks_per_node :=
      lt_of_lt_of_le (by omega) hk
    exact Nat.succ_le_of_lt ((Nat.div_lt_iff_lt_mul ht).mpr h2)
  · rw [hq]
    exact Nat.le_add_left 1 _

/-- C8 witness: 100 cores at 48 tasks per node fit in 3 nodes and in no
fewer. -/
theorem required_nodes_ceiling_witness :
    100 ≤ required_nodes 100 48 * 48
    ∧ required_nodes 100 48 ≤ 3
    ∧ 1 ≤ required_nodes 100 48
    ∧ required_nodes 100 48 = 3 := by
  have h := required_nodes_ceiling 100 48 3 (by decide) (by decide)
  exact ⟨h.1, h.2.1 (by decide), h.2.2.1, h.2.2.2⟩

/-! ## BaseRunner.make_cmd_for_config (src/runners.py, lines 72-100)

To make the frame effect of `config = config.copy()` statable, dicts live
in an explicit heap (a list of configurations addressed by index); copying
allocates a fresh cell at the end of the heap and the field injections
mutate only that cell. -/

/-- Python dict assignment `d[k] = v`: update the value in place when the
key exists (keeping its position), append the pair otherwise. -/
def dictSet (d : Config) (k : String) (v : Val) : Config :=
  if (List.lookup k d).isSome then d.map (fun p => if p.1 = k then (k, v) else p)
  else d ++ [(k, v)]

/-- Translation of `expcore.command` (src/expcore.py, lines 332-349).  The
build directory (resolved in the source from the `BUILD_DIR` environment
variable with a default) is passed in; the input is represented by its
already-rendered argument list (`some args` for a present input, `none`
for no input; a plain-string input is the singleton of its text), since
`mpi_ranks`, `threads_per_rank` and `escape` are consumed only by that
rendering. -/
def command (build_dir binary_name binary_path : String)
    (input_args : Option (List String)) (kwargs : Config) : List String :=
  let app := build_dir ++ "/" ++ binary_path ++ "/" ++ binary_name
  let cmd := match input_args with
    | some iargs => [app] ++ iargs
    | none => [app]
  cmd ++ params_to_flags kwargs

/-- Heap of configuration dicts; a dict reference is an index. -/
abbrev Heap := List Config

/-- Translation of `BaseRunner.make_cmd_for_config` (src/runners.py,
lines 72-100): build the per-job JSON output path, copy the caller's
configuration (`config = config.copy()` allocates a fresh cell), inject
`json_output_path` and `seed` into the copy unless suppressed, and
delegate to `command` with the copy.  Returns the built command and the
heap after the call. -/
def make_cmd_for_config (omit_json_output_path omit_seed : Bool)
    (output_directory config_job_name : String) (seed : Int)
    (executable build_dir : String) (input_args : Option (List String))
    (h : Heap) (config_ref : Nat) : List String × Heap :=
  let json_output_prefix_path :=
    output_directory ++ "/" ++ config_job_name ++ "_timer.json"
  let copy_ref := h.length
  let h1 := h ++ [h.getD config_ref []]
  let h2 := if omit_json_output_path then h1
    else h1.set copy_ref
      (dictSet (h1.getD copy_ref []) "json_output_path" (Val.vStr json_output_prefix_path))
  let h3 := if omit_seed then h2
    else h2.set copy_ref (dictSet (h2.getD copy_ref []) "seed" (Val.vInt seed))
  (command build_dir executable "." input_args (h3.getD copy_ref []), h3)

/-- C9: the caller's configuration dict is untouched by
`make_cmd_for_config`: every heap cell that existed before the call, in
particular the one passed as `config`, holds exactly the same fields and
values afterwards; the JSON-output-path and seed fields are injected only
into the freshly allocated copy. -/
theorem make_cmd_for_config_frame (omit_json omit_seed : Bool)
    (outdir jobname : String) (seed : Int) (exe bdir : String)
    (iargs : Option (List String)) (h : Heap) (r : Nat)
    (hr : r < h.length) :
    ((make_cmd_for_config omit_json omit_seed outdir jobname seed exe bdir iargs h r).2).getD r []
      = h.getD r []
    ∧ (omit_json = false → omit_seed = false →
      ((make_cmd_for_config omit_json omit_seed outdir jobname seed exe bdir iargs h r).2).getD
          h.length []
        = dictSet (dictSet (h.getD r []) "json_output_path"
            (Val.vStr (outdir ++ "/" ++ jobname ++ "_timer.json"))) "seed" (Val.vInt seed)) := by
  have hne : h.length ≠ r := Nat.ne_of_gt hr
  have happ : (h ++ [h.getD r []]).getD r [] = h.getD r [] :=
    List.getD_append h [h.getD r []] [] r hr
  have happ_len : (h ++ [h.getD r []]).getD h.length [] = h.getD r [] := by
    rw [List.getD_append_right h [h.getD r []] [] h.length (le_refl _)]
    simp
  have hset_ne : ∀ (l : Heap) (x : Config), (l.set h.length x).getD r [] = l.getD r [] := by
    intro l x
    rw [List.getD_eq_getElem?_getD, List.getD_eq_getElem?_getD,
      List.getElem?_set_ne hne]
  have hset_len : ∀ (l : Heap) (x : Config), h.length < l.length →
      (l.set h.length x).getD h.length [] = x := by
    intro l x hl
    rw [List.getD_eq_getElem?_getD, List.getElem?_set_self hl]
    rfl
  constructor
  · unfold make_cmd_for_config
    cases omit_json <;> cases omit_seed <;>
      simp only [Bool.false_eq_true, if_false, if_true, hset_ne, happ]
  · intro hj hs
    subst hj hs
    unfold make_cmd_for_config
    simp only [Bool.false_eq_true, if_false]
    have hlen1 : h.length < (h ++ [h.getD r []]).length := by simp
    have hlen2 : ∀ (l : Heap) (x : Config), h.length < l.length →
        h.length < (l.set h.length x).length := by
      intro l x hl
      simpa [List.length_set] using hl
    rw [hset_len _ _ (hlen2 _ _ hlen1), hset_len _ _ hlen1, happ_len]

/-- C9 witness: with a one-cell heap holding `{a: 1}`, building a command
(with both injections active) leaves cell 0 equal to `{a: 1}`, and the
fresh copy holds the injected fields. -/
theorem make_cmd_for_config_frame_witness :
    ((make_cmd_for_config false false "/out" "job0" 7 "exe" "/build" none
        [[("a", Val.vInt 1)]] 0).2).getD 0 []
      = ([[("a", Val.vInt 1)]] : Heap).getD 0 []
    ∧ ((make_cmd_for_config false false "/out" "job0" 7 "exe" "/build" none
        [[("a", Val.vInt 1)]] 0).2).getD 1 []
      = dictSet (dictSet [("a", Val.vInt 1)] "json_output_path"
          (Val.vStr "/out/job0_timer.json")) "seed" (Val.vInt 7) := by
  have hw := make_cmd_for_config_frame false false "/out" "job0" 7 "exe" "/build"
    none [[("a", Val.vInt 1)]] 0 (by decide)
  exact ⟨hw.1, hw.2 rfl rfl⟩

/-! ## SyntheticInput: `DummyInstance` (src/expcore.py, lines 166-179) -/

/-- State of a `DummyInstance`: the stored display name (`name_`, taken
from the `name` keyword) and the remaining parameters (`kwargs` minus
`name`). -/
structure DummyInstance where
  name_ : Val
  params : Config

/-- Translation of `DummyInstance.args` (src/expcore.py, lines 172-179):
for each parameter, emit `--key` unless the key is the literal `nokey`,
then emit the double-quoted stringified value unless the value is a
boolean (note: a boolean never emits a value token but always keeps its
flag token, whether True or False). -/
def DummyInstance.args (d : DummyInstance) : List String :=
  d.params.foldl
    (fun acc p =>
      (acc ++ (if p.1 != "nokey" then ["--" ++ p.1] else []))
        ++ (if p.2.isVBool then [] else ["\x22" ++ pyStr p.2 ++ "\x22"]))
    []

/-- Tokens contributed by a single `DummyInstance` parameter. -/
def dummyTokens (p : String × Val) : List String :=
  (if p.1 != "nokey" then ["--" ++ p.1] else [])
    ++ (if p.2.isVBool then [] else ["\x22" ++ pyStr p.2 ++ "\x22"])

theorem dummy_args_go (params : Config) (acc : List String) :
    params.foldl
      (fun acc p =>
        (acc ++ (if p.1 != "nokey" then ["--" ++ p.1] else []))
          ++ (if p.2.isVBool then [] else ["\x22" ++ pyStr p.2 ++ "\x22"]))
      acc = acc ++ params.flatMap dummyTokens := by
  induction params generalizing acc with
  | nil => simp
  | cons p ps ih =>
    rw [List.foldl_cons, ih]
    simp [dummyTokens, List.append_assoc]

/-- C10: synthetic-input rendering emits, per parameter in order, the flag
token for every key other than the literal `nokey` — including boolean
parameters whose value is False (unlike scalar-configuration rendering,
False does not suppress the flag) — and the double-quoted stringified
value for every non-boolean value; a `nokey` parameter with a non-boolean
value therefore contributes only its double-quoted value. -/
theorem dummy_args_rendering (d : DummyInstance) (k : String) (b : Bool) (v : Val) :
    d.args = d.params.flatMap dummyTokens
    ∧ (k ≠ "nokey" →
      DummyInstance.args ⟨Val.vStr "dummy", [(k, Val.vBool b)]⟩ = ["--" ++ k])
    ∧ (v.isVBool = false →
      DummyInstance.args ⟨Val.vStr "dummy", [("nokey", v)]⟩
        = ["\x22" ++ pyStr v ++ "\x22"]) := by
  refine ⟨dummy_args_go d.params [], fun hk => ?_, fun hv => ?_⟩
  · have hbne : (k != "nokey") = true := bne_iff_ne.mpr hk
    simp [DummyInstance.args, hbne, Val.isVBool, hk]
  · simp [DummyInstance.args, hv]

/-- C10 witness: a False-valued boolean parameter still emits its flag, and
a `nokey` string parameter emits only its double-quoted value. -/
theorem dummy_args_rendering_witness :
    DummyInstance.args ⟨Val.vStr "dummy", [("cut", Val.vBool false)]⟩ = ["--cut"]
    ∧ DummyInstance.args ⟨Val.vStr "dummy", [("nokey", Val.vStr "inst")]⟩
      = ["\x22inst\x22"] := by
  constructor
  · exact (dummy_args_rendering ⟨Val.vStr "dummy", []⟩ "cut" false Val.vNone).2.1
      (by decide)
  · have h := (dummy_args_rendering ⟨Val.vStr "dummy", []⟩ "x" false
      (Val.vStr "inst")).2.2 rfl
    simpa using h
